import Mathlib

/-
Shallow embedding of the Retrieval-Augmentation Pipeline of the
claude-sdk-agent backend.

Embedded source files:
- backend/src/config/env.ts            (the `config` object)
- backend/src/services/bedrock-kb.service.ts        (BedrockKBService)
- backend/src/services/query-decomposition.service.ts (QueryDecompositionService)
- backend/src/services/rag.service.ts  (RAGService)

Modelling conventions:
- JavaScript numbers used as relevance scores are modelled by `Rat`;
  the only operations the pipeline performs on them are order
  comparisons and the comparator subtraction inside `Array.sort`, whose
  sign agrees with the order comparison.
- Effectful external calls (the AWS Bedrock retrieve call, the Anthropic
  completion call) are modelled as explicit parameters of type
  `Except Unit _`: `.error` is a thrown exception, `.ok` is the value the
  call resolved with.
- `Map`/`Set` objects (insertion-ordered in JavaScript) are modelled as
  association lists / lists with insert-if-absent appending.
- Wall-clock timing is not modelled: `processingTime` is 0.
-/

/-- Mirror of the `config` object of backend/src/config/env.ts restricted to
the fields the retrieval pipeline reads. -/
structure Config where
  anthropicApiKey : String
  enableRag : Bool
  ragBedrockKbId : String
  ragMaxResults : Nat
  ragMaxDecompositionQueries : Nat
  ragMinRelevanceScore : Rat
  deriving DecidableEq

/-- Mirror of interface RetrievalResult (bedrock-kb.service.ts). -/
structure RetrievalResult where
  content : String
  source : String
  score : Rat
  metadata : Option (List (String × String)) := none
  deriving DecidableEq

/-- Mirror of interface RetrievalResponse (bedrock-kb.service.ts). -/
structure RetrievalResponse where
  results : List RetrievalResult
  query : String
  totalResults : Nat
  deriving DecidableEq

/-- One raw item of the AWS `Retrieve` response
(`response.retrievalResults[i]`): every field the code reads is optional
at the AWS SDK type. -/
structure KBRawResult where
  contentText : Option String := none
  locationUri : Option String := none
  score : Option Rat := none
  metadata : Option (List (String × String)) := none
  deriving DecidableEq

/-- JavaScript `x || dflt` on an optional string: `undefined` and the empty
string are falsy, any other string is returned unchanged. -/
def jsOrString : Option String → String → String
  | none, dflt => dflt
  | some s, dflt => if s = "" then dflt else s

/-- JavaScript `x || 0` on an optional number (`result.score || 0` in
`BedrockKBService.retrieve`): `undefined` becomes 0, a number is kept
(`0 || 0` is still 0). -/
def jsNumOrZero : Option Rat → Rat
  | none => 0
  | some x => x

/-- The result-processing loop of `BedrockKBService.retrieve`
(bedrock-kb.service.ts, lines 333-349): each raw AWS item gets an effective
score of `result.score || 0` and is kept, converted to a `RetrievalResult`,
exactly when `score >= config.ragMinRelevanceScore`. -/
def BedrockKBService.retrieveResults (cfg : Config) (raw : List KBRawResult) :
    List RetrievalResult :=
  raw.filterMap (fun result =>
    let score := jsNumOrZero result.score
    if cfg.ragMinRelevanceScore ≤ score then
      some { content := jsOrString result.contentText ""
           , source := jsOrString result.locationUri "Unknown source"
           , score := score
           , metadata := result.metadata }
    else none)

/-- `BedrockKBService.retrieve(query)`: the AWS call outcome is the
`awsResponse` parameter (`.error` models a thrown client/network error,
including the un-initialized-client throw); on success the raw items are
filtered by `retrieveResults` and wrapped in a `RetrievalResponse`. -/
def BedrockKBService.retrieve (cfg : Config)
    (awsResponse : Except Unit (List KBRawResult)) (query : String) :
    Except Unit RetrievalResponse :=
  match awsResponse with
  | .error e => .error e
  | .ok raw =>
    let results := BedrockKBService.retrieveResults cfg raw
    .ok { results := results, query := query, totalResults := results.length }

/-- Mirror of interface DecomposedQueries (query-decomposition.service.ts). -/
structure DecomposedQueries where
  originalQuery : String
  subQueries : List String
  reasoning : String
  deriving DecidableEq

/-- The successfully parsed JSON body of the decomposition completion
(`JSON.parse(content.text)` with a `subQueries` array and a `reasoning`
string). -/
structure ParsedDecomposition where
  subQueries : List String
  reasoning : String
  deriving DecidableEq

/-- `QueryDecompositionService.decomposeQuery(query)`
(query-decomposition.service.ts, lines 416-498). The client exists exactly
when `config.anthropicApiKey` is non-empty; `completion` is the outcome of
the completion call combined with response parsing (`.error` models a
thrown API error, a non-text content block, malformed JSON, or a response
without a `subQueries` array — every path that lands in the catch block).
On success the parsed list is truncated with
`slice(0, config.ragMaxDecompositionQueries)`. -/
def QueryDecompositionService.decomposeQuery (cfg : Config)
    (completion : Except Unit ParsedDecomposition) (query : String) :
    DecomposedQueries :=
  if cfg.anthropicApiKey = "" then
    { originalQuery := query
    , subQueries := [query]
    , reasoning := "No decomposition performed - API key not configured" }
  else
    match completion with
    | .ok parsed =>
      { originalQuery := query
      , subQueries := parsed.subQueries.take cfg.ragMaxDecompositionQueries
      , reasoning := parsed.reasoning }
    | .error _ =>
      { originalQuery := query
      , subQueries := [query]
      , reasoning := "Decomposition failed, using original query" }

/-- Mirror of interface RAGContext (rag.service.ts). -/
structure RAGContext where
  query : String
  context : String
  sources : List String
  subQueries : List String
  totalResults : Nat
  processingTime : Nat
  deriving DecidableEq

/-- `RAGService.isEnabled()`: `config.enableRag && !!config.ragBedrockKbId`;
a string is truthy exactly when it is non-empty. -/
def RAGService.isEnabled (cfg : Config) : Bool :=
  cfg.enableRag && !(cfg.ragBedrockKbId == "")

/-- `RAGService.hashContent(content)` (rag.service.ts, lines 398-401):
first 100 characters of the content, an underscore, and the content
length. -/
def RAGService.hashContent (content : String) : String :=
  content.take 100 ++ "_" ++ toString content.length

/-- JavaScript `Set.add`: a set iterated in insertion order; adding an
element that is already present leaves the set unchanged. -/
def jsSetAdd (s : List String) (x : String) : List String :=
  if x ∈ s then s else s ++ [x]

/-- The body of the deduplication loop of `RAGService.retrieveContext`
(rag.service.ts, lines 338-344): the accumulator is the pair of the
insertion-ordered `allResults` map (as an association list keyed by
content hash) and the insertion-ordered `allSources` set. -/
def RAGService.dedupInsert
    (acc : List (String × RetrievalResult) × List String)
    (result : RetrievalResult) :
    List (String × RetrievalResult) × List String :=
  if RAGService.hashContent result.content ∈ acc.1.map Prod.fst then acc
  else
    ( acc.1 ++ [(RAGService.hashContent result.content, result)]
    , jsSetAdd acc.2 result.source )

/-- The accumulation of `retrieveContext` expressed over a sequence of
per-sub-query result sets: fold every result of every set, in order,
through `dedupInsert`, starting from the empty map and the empty set. -/
def RAGService.mergeSets (sets : List (List RetrievalResult)) :
    List (String × RetrievalResult) × List String :=
  sets.foldl (fun acc results => results.foldl RAGService.dedupInsert acc)
    ([], [])

/-- The retrieval loop of `RAGService.retrieveContext` (rag.service.ts,
lines 326-354): for each sub-query in order, call the knowledge base; on
success fold the results through `dedupInsert`; on a thrown error log and
continue with the next sub-query. -/
def RAGService.retrieveLoop (kb : String → Except Unit RetrievalResponse)
    (subQueries : List String) :
    List (String × RetrievalResult) × List String :=
  subQueries.foldl (fun acc subQuery =>
    match kb subQuery with
    | .ok response => response.results.foldl RAGService.dedupInsert acc
    | .error _ => acc) ([], [])

/-- The per-sub-query result sets that were successfully retrieved, in
sub-query submission order (a failed call contributes no set). -/
def RAGService.successResultSets
    (kb : String → Except Unit RetrievalResponse)
    (subQueries : List String) : List (List RetrievalResult) :=
  subQueries.filterMap (fun subQuery =>
    match kb subQuery with
    | .ok response => some response.results
    | .error _ => none)

/-- `RAGService.rankResults(results)` (rag.service.ts, lines 406-408):
`results.sort((a, b) => b.score - a.score)` — a stable sort (guaranteed by
ECMAScript) under the comparator whose sign is that of
`b.score - a.score`, i.e. descending by score. -/
def RAGService.rankResults (results : List RetrievalResult) :
    List RetrievalResult :=
  results.mergeSort (fun a b => decide (b.score ≤ a.score))

/-- `Number.prototype.toFixed(1)` for the in-range scores the formatter
prints: round to the nearest tenth (ties up) and print one decimal. -/
def jsToFixed1 (x : Rat) : String :=
  let n : Int := Rat.floor (x * 10 + 1 / 2)
  toString (n / 10) ++ "." ++ toString ((n % 10).natAbs)

/-- `RAGService.extractSourceName(source)` (rag.service.ts, lines 459-472):
last `/`-separated segment, falling back to the whole source when that
segment is empty (the S3 branch and the plain-path branch are the same
computation). -/
def RAGService.extractSourceName (source : String) : String :=
  let parts := source.splitOn "/"
  match parts.getLast? with
  | some s => if s = "" then source else s
  | none => source

/-- `RAGService.formatContext(results, originalQuery)` (rag.service.ts,
lines 413-454): empty string for an empty result list, otherwise a header
naming the query, one numbered block per result (source label, score as a
percentage, raw content), and the fixed instructional trailer. -/
def RAGService.formatContext (results : List RetrievalResult)
    (originalQuery : String) : String :=
  if results.length = 0 then ""
  else
    let header :=
      "## Retrieved Knowledge Base Context\n\nThe following information was retrieved from the knowledge base to help answer the question: \""
      ++ originalQuery ++ "\"\n\n---\n\n"
    let blocks := results.enum.map (fun p =>
      "### Document " ++ toString (p.1 + 1) ++ " ["
      ++ RAGService.extractSourceName p.2.source
      ++ "]\n**Relevance Score:** " ++ jsToFixed1 (p.2.score * 100)
      ++ "%\n\n" ++ p.2.content ++ "\n\n---\n\n")
    let trailer :=
      "\n## Instructions for Using This Context\n\n1. Use the retrieved information to provide accurate, comprehensive answers\n2. If the context doesn\x27t fully answer the question, acknowledge what information is missing\n3. Cite specific documents by their number (e.g., \"According to Document 1...\")\n4. Synthesize information from multiple documents when relevant\n5. If you find contradictions between documents, note them\n\n---\n\n"
    header ++ String.join blocks ++ trailer

/-- `RAGService.retrieveContext(query, onEvent?)` (rag.service.ts, lines
286-393). Environment parameters: `completion` is the outcome of the one
decomposition completion call of the run, `aws` gives the outcome of the
AWS retrieve call for each sub-query. Progress events are observational
and not modelled; `processingTime` (wall clock) is modelled as 0. -/
def RAGService.retrieveContext (cfg : Config)
    (completion : Except Unit ParsedDecomposition)
    (aws : String → Except Unit (List KBRawResult))
    (query : String) : RAGContext :=
  if !RAGService.isEnabled cfg then
    { query := query, context := "", sources := [], subQueries := []
    , totalResults := 0, processingTime := 0 }
  else
    let decomposed := QueryDecompositionService.decomposeQuery cfg completion query
    let acc := RAGService.retrieveLoop
      (fun subQuery => BedrockKBService.retrieve cfg (aws subQuery) subQuery)
      decomposed.subQueries
    let rankedResults := RAGService.rankResults (acc.1.map Prod.snd)
    let context := RAGService.formatContext rankedResults query
    { query := query
    , context := context
    , sources := acc.2
    , subQueries := decomposed.subQueries
    , totalResults := rankedResults.length
    , processingTime := 0 }

/-- The ranked, deduplicated result list `rankedResults` that
`retrieveContext` computes internally (rag.service.ts, line 362); empty
when the pipeline does not run. -/
def RAGService.rankedResultsOf (cfg : Config)
    (completion : Except Unit ParsedDecomposition)
    (aws : String → Except Unit (List KBRawResult))
    (query : String) : List RetrievalResult :=
  if !RAGService.isEnabled cfg then []
  else
    RAGService.rankResults
      ((RAGService.retrieveLoop
        (fun subQuery => BedrockKBService.retrieve cfg (aws subQuery) subQuery)
        (QueryDecompositionService.decomposeQuery cfg completion query).subQueries).1.map
        Prod.snd)

/-- `RAGService.augmentPrompt(userMessage, onEvent?)` (rag.service.ts,
lines 477-497): pass the message through unchanged when the pipeline is
disabled or the retrieved context is empty, otherwise prepend the context
and the `## User Question` separator. -/
def RAGService.augmentPrompt (cfg : Config)
    (completion : Except Unit ParsedDecomposition)
    (aws : String → Except Unit (List KBRawResult))
    (userMessage : String) : String :=
  if !RAGService.isEnabled cfg then userMessage
  else
    let ragContext := RAGService.retrieveContext cfg completion aws userMessage
    if ragContext.context = "" then userMessage
    else ragContext.context ++ "\n\n## User Question\n\n" ++ userMessage

/-- Modelled from the spec (section 3, ContentSignature; section 4.3): the
deduplication the spec describes — scan the flattened results in order and
retain a result exactly when no earlier result has the same content
signature. `seen` is the set of signatures already retained. -/
def firstSeenFrom (seen : List String) : List RetrievalResult → List RetrievalResult
  | [] => []
  | r :: rs =>
    if RAGService.hashContent r.content ∈ seen then firstSeenFrom seen rs
    else r :: firstSeenFrom (seen ++ [RAGService.hashContent r.content]) rs

/-- First-seen deduplication by content signature, starting from no
retained signatures. -/
def firstSeenDedup (results : List RetrievalResult) : List RetrievalResult :=
  firstSeenFrom [] results

/-! ### Helper lemmas about the deduplication fold -/

theorem jsSetAdd_mem (s : List String) (x y : String) :
    y ∈ jsSetAdd s x ↔ y ∈ s ∨ y = x := by
  unfold jsSetAdd
  split
  · rename_i h
    constructor
    · exact Or.inl
    · rintro (hy | rfl)
      · exact hy
      · exact h
  · simp [List.mem_append]

theorem jsSetAdd_nodup {s : List String} (h : s.Nodup) (x : String) :
    (jsSetAdd s x).Nodup := by
  unfold jsSetAdd
  split
  · exact h
  · rename_i hx
    simp [List.nodup_append, h, hx]

theorem foldl_dedupInsert_eq (L : List RetrievalResult) :
    ∀ (ps : List (String × RetrievalResult)) (ss : List String),
    L.foldl RAGService.dedupInsert (ps, ss)
      = ( ps ++ (firstSeenFrom (ps.map Prod.fst) L).map
            (fun r => (RAGService.hashContent r.content, r))
        , (firstSeenFrom (ps.map Prod.fst) L).foldl
            (fun acc r => jsSetAdd acc r.source) ss ) := by
  induction L with
  | nil => intro ps ss; simp [firstSeenFrom]
  | cons r rs ih =>
    intro ps ss
    by_cases h : RAGService.hashContent r.content ∈ ps.map Prod.fst
    · simp only [List.foldl_cons, RAGService.dedupInsert, if_pos h,
        firstSeenFrom, ih]
    · simp only [List.foldl_cons, RAGService.dedupInsert, if_neg h,
        firstSeenFrom, ih, List.map_append, List.append_assoc,
        List.map_cons, List.foldl_cons]
      simp [List.map_append]

theorem mergeSets_eq (sets : List (List RetrievalResult)) :
    RAGService.mergeSets sets
      = ( (firstSeenDedup sets.flatten).map
            (fun r => (RAGService.hashContent r.content, r))
        , (firstSeenDedup sets.flatten).foldl
            (fun acc r => jsSetAdd acc r.source) [] ) := by
  have h1 : RAGService.mergeSets sets
      = sets.flatten.foldl RAGService.dedupInsert ([], []) :=
    (List.foldl_flatten RAGService.dedupInsert ([], []) sets).symm
  rw [h1]
  unfold firstSeenDedup
  simpa using foldl_dedupInsert_eq sets.flatten [] []

theorem mergeSets_fst_map_snd (sets : List (List RetrievalResult)) :
    (RAGService.mergeSets sets).1.map Prod.snd = firstSeenDedup sets.flatten := by
  rw [mergeSets_eq]
  simp only [List.map_map]
  have hid : (Prod.snd ∘ fun r : RetrievalResult =>
      (RAGService.hashContent r.content, r)) = id := rfl
  rw [hid, List.map_id]

theorem firstSeenFrom_key_notin (L : List RetrievalResult) :
    ∀ (seen : List String), ∀ r ∈ firstSeenFrom seen L,
      RAGService.hashContent r.content ∉ seen := by
  induction L with
  | nil => intro seen r hr; simp [firstSeenFrom] at hr
  | cons x xs ih =>
    intro seen r hr
    by_cases h : RAGService.hashContent x.content ∈ seen
    · rw [firstSeenFrom, if_pos h] at hr
      exact ih seen r hr
    · rw [firstSeenFrom, if_neg h] at hr
      rcases List.mem_cons.mp hr with rfl | hr
      · exact h
      · intro hmem
        exact ih _ r hr (List.mem_append_left _ hmem)

theorem firstSeenFrom_pairwise (L : List RetrievalResult) :
    ∀ (seen : List String),
    List.Pairwise
      (fun a b => RAGService.hashContent a.content ≠ RAGService.hashContent b.content)
      (firstSeenFrom seen L) := by
  induction L with
  | nil => intro seen; simp [firstSeenFrom]
  | cons x xs ih =>
    intro seen
    by_cases h : RAGService.hashContent x.content ∈ seen
    · rw [firstSeenFrom, if_pos h]
      exact ih seen
    · rw [firstSeenFrom, if_neg h]
      refine List.Pairwise.cons ?_ (ih _)
      intro b hb heq
      have hmem : RAGService.hashContent b.content
          ∈ seen ++ [RAGService.hashContent x.content] := by
        rw [← heq]
        exact List.mem_append_right _ (List.mem_singleton.mpr rfl)
      exact firstSeenFrom_key_notin xs _ b hb hmem

theorem firstSeenFrom_subset (L : List RetrievalResult) :
    ∀ (seen : List String), ∀ r ∈ firstSeenFrom seen L, r ∈ L := by
  induction L with
  | nil => intro seen r hr; simp [firstSeenFrom] at hr
  | cons x xs ih =>
    intro seen r hr
    by_cases h : RAGService.hashContent x.content ∈ seen
    · rw [firstSeenFrom, if_pos h] at hr
      exact List.mem_cons_of_mem _ (ih seen r hr)
    · rw [firstSeenFrom, if_neg h] at hr
      rcases List.mem_cons.mp hr with rfl | hr
      · exact List.mem_cons_self _ _
      · exact List.mem_cons_of_mem _ (ih _ r hr)

theorem retrieveLoop_foldl_eq (kb : String → Except Unit RetrievalResponse)
    (subQueries : List String) :
    ∀ (acc : List (String × RetrievalResult) × List String),
    subQueries.foldl (fun acc subQuery =>
        match kb subQuery with
        | .ok response => response.results.foldl RAGService.dedupInsert acc
        | .error _ => acc) acc
      = (RAGService.successResultSets kb subQueries).foldl
          (fun acc results => results.foldl RAGService.dedupInsert acc) acc := by
  induction subQueries with
  | nil => intro acc; simp [RAGService.successResultSets]
  | cons q qs ih =>
    intro acc
    simp only [List.foldl_cons, RAGService.successResultSets,
      List.filterMap_cons]
    cases hkq : kb q with
    | ok response =>
      simp only [hkq, List.foldl_cons]
      exact ih _
    | error e =>
      simp only [hkq]
      exact ih _

theorem retrieveLoop_eq_mergeSets (kb : String → Except Unit RetrievalResponse)
    (subQueries : List String) :
    RAGService.retrieveLoop kb subQueries
      = RAGService.mergeSets (RAGService.successResultSets kb subQueries) := by
  unfold RAGService.retrieveLoop RAGService.mergeSets
  exact retrieveLoop_foldl_eq kb subQueries ([], [])

theorem foldl_jsSetAdd_mem (L : List RetrievalResult) :
    ∀ (ss : List String) (s : String),
    s ∈ L.foldl (fun acc r => jsSetAdd acc r.source) ss
      ↔ s ∈ ss ∨ ∃ r ∈ L, r.source = s := by
  induction L with
  | nil => simp
  | cons x xs ih =>
    intro ss s
    simp only [List.foldl_cons, ih, jsSetAdd_mem, List.mem_cons]
    constructor
    · rintro ((hs | hx) | ⟨r, hr, hsrc⟩)
      · exact Or.inl hs
      · exact Or.inr ⟨x, Or.inl rfl, hx.symm⟩
      · exact Or.inr ⟨r, Or.inr hr, hsrc⟩
    · rintro (hs | ⟨r, (rfl | hr), hsrc⟩)
      · exact Or.inl (Or.inl hs)
      · exact Or.inl (Or.inr hsrc.symm)
      · exact Or.inr ⟨r, hr, hsrc⟩

theorem foldl_jsSetAdd_nodup (L : List RetrievalResult) :
    ∀ (ss : List String), ss.Nodup →
    (L.foldl (fun acc r => jsSetAdd acc r.source) ss).Nodup := by
  induction L with
  | nil => intro ss h; exact h
  | cons x xs ih => intro ss h; exact ih _ (jsSetAdd_nodup h _)

/-! ### Helper lemmas about ranking -/

theorem scoreComparator_trans : ∀ a b c : RetrievalResult,
    decide (b.score ≤ a.score) = true → decide (c.score ≤ b.score) = true →
    decide (c.score ≤ a.score) = true := by
  intro a b c h1 h2
  simp only [decide_eq_true_eq] at h1 h2 ⊢
  exact le_trans h2 h1

theorem scoreComparator_total : ∀ a b : RetrievalResult,
    (decide (b.score ≤ a.score) || decide (a.score ≤ b.score)) = true := by
  intro a b
  simp only [Bool.or_eq_true, decide_eq_true_eq]
  exact le_total b.score a.score

theorem rankResults_perm (results : List RetrievalResult) :
    (RAGService.rankResults results).Perm results := by
  unfold RAGService.rankResults
  exact List.mergeSort_perm results _

theorem rankResults_sorted (results : List RetrievalResult) :
    List.Pairwise (fun a b => b.score ≤ a.score)
      (RAGService.rankResults results) := by
  unfold RAGService.rankResults
  have h := List.sorted_mergeSort scoreComparator_trans scoreComparator_total
    results
  exact h.imp (fun hab => of_decide_eq_true hab)

theorem rankResults_filter_score (results : List RetrievalResult) (s : Rat) :
    (RAGService.rankResults results).filter (fun r => decide (r.score = s))
      = results.filter (fun r => decide (r.score = s)) := by
  unfold RAGService.rankResults
  have hpair : List.Pairwise (fun a b => decide (b.score ≤ a.score) = true)
      (results.filter (fun r => decide (r.score = s))) := by
    apply List.pairwise_of_forall_mem_list
    intro a ha b hb
    have ha2 := (List.mem_filter.mp ha).2
    have hb2 := (List.mem_filter.mp hb).2
    simp only [decide_eq_true_eq] at ha2 hb2 ⊢
    rw [ha2, hb2]
  have hsub : (results.filter (fun r => decide (r.score = s))).Sublist
      (results.mergeSort (fun a b => decide (b.score ≤ a.score))) :=
    List.sublist_mergeSort scoreComparator_trans scoreComparator_total hpair
      (List.filter_sublist results)
  have hsub2 := hsub.filter (fun r => decide (r.score = s))
  have hidem : (results.filter (fun r => decide (r.score = s))).filter
      (fun r => decide (r.score = s))
      = results.filter (fun r => decide (r.score = s)) :=
    List.filter_eq_self.mpr (fun a ha => (List.mem_filter.mp ha).2)
  rw [hidem] at hsub2
  have hperm : ((results.mergeSort
      (fun a b => decide (b.score ≤ a.score))).filter
        (fun r => decide (r.score = s))).Perm
      (results.filter (fun r => decide (r.score = s))) :=
    (List.mergeSort_perm results _).filter _
  exact (hsub2.eq_of_length hperm.length_eq.symm).symm

/-! ### Helper lemmas about the orchestrator -/

theorem retrieveContext_disabled {cfg : Config}
    (h : RAGService.isEnabled cfg = false)
    (completion : Except Unit ParsedDecomposition)
    (aws : String → Except Unit (List KBRawResult)) (query : String) :
    RAGService.retrieveContext cfg completion aws query
      = { query := query, context := "", sources := [], subQueries := []
        , totalResults := 0, processingTime := 0 } := by
  simp [RAGService.retrieveContext, h]

theorem rankedResultsOf_loop {cfg : Config}
    (h : RAGService.isEnabled cfg = true)
    (completion : Except Unit ParsedDecomposition)
    (aws : String → Except Unit (List KBRawResult)) (query : String) :
    RAGService.rankedResultsOf cfg completion aws query
      = RAGService.rankResults
          ((RAGService.retrieveLoop
            (fun subQuery => BedrockKBService.retrieve cfg (aws subQuery) subQuery)
            (QueryDecompositionService.decomposeQuery cfg completion
              query).subQueries).1.map Prod.snd) := by
  simp [RAGService.rankedResultsOf, h]

theorem retrieveContext_enabled {cfg : Config}
    (h : RAGService.isEnabled cfg = true)
    (completion : Except Unit ParsedDecomposition)
    (aws : String → Except Unit (List KBRawResult)) (query : String) :
    RAGService.retrieveContext cfg completion aws query
      = { query := query
        , context := RAGService.formatContext
            (RAGService.rankedResultsOf cfg completion aws query) query
        , sources := (RAGService.retrieveLoop
            (fun subQuery => BedrockKBService.retrieve cfg (aws subQuery) subQuery)
            (QueryDecompositionService.decomposeQuery cfg completion
              query).subQueries).2
        , subQueries := (QueryDecompositionService.decomposeQuery cfg completion
            query).subQueries
        , totalResults := (RAGService.rankedResultsOf cfg completion aws
            query).length
        , processingTime := 0 } := by
  rw [rankedResultsOf_loop h]
  simp [RAGService.retrieveContext, h]

theorem retrieveResults_score {cfg : Config} {raw : List KBRawResult}
    {r : RetrievalResult} (h : r ∈ BedrockKBService.retrieveResults cfg raw) :
    cfg.ragMinRelevanceScore ≤ r.score := by
  unfold BedrockKBService.retrieveResults at h
  obtain ⟨a, _, heq⟩ := List.mem_filterMap.mp h
  by_cases hsc : cfg.ragMinRelevanceScore ≤ jsNumOrZero a.score
  · simp only [if_pos hsc, Option.some.injEq] at heq
    rw [← heq]
    exact hsc
  · simp only [if_neg hsc] at heq
    cases heq

theorem mem_rankedResultsOf {cfg : Config}
    {completion : Except Unit ParsedDecomposition}
    {aws : String → Except Unit (List KBRawResult)} {query : String}
    {r : RetrievalResult}
    (h : r ∈ RAGService.rankedResultsOf cfg completion aws query) :
    ∃ raws : List KBRawResult, r ∈ BedrockKBService.retrieveResults cfg raws := by
  unfold RAGService.rankedResultsOf at h
  by_cases hen : RAGService.isEnabled cfg = true
  · rw [hen] at h
    simp only [Bool.not_true] at h
    rw [if_neg (by simp)] at h
    have h1 := (rankResults_perm _).mem_iff.mp h
    rw [retrieveLoop_eq_mergeSets, mergeSets_fst_map_snd] at h1
    have h2 := firstSeenFrom_subset _ _ r h1
    obtain ⟨set, hset, hr⟩ := List.mem_flatten.mp h2
    unfold RAGService.successResultSets at hset
    obtain ⟨q, _, hq⟩ := List.mem_filterMap.mp hset
    simp only [] at hq
    cases haws : aws q with
    | error e =>
      rw [haws] at hq
      simp [BedrockKBService.retrieve] at hq
    | ok raws =>
      rw [haws] at hq
      simp only [BedrockKBService.retrieve, Option.some.injEq] at hq
      exact ⟨raws, hq ▸ hr⟩
  · rw [Bool.not_eq_true] at hen
    rw [hen] at h
    simp at h

/-! ### Concrete fixtures for witnesses and counterexamples -/

/-- Retrieval enabled but no knowledge-base id configured. -/
def cfgMisconfigured : Config :=
  { anthropicApiKey := "key", enableRag := true, ragBedrockKbId := ""
  , ragMaxResults := 10, ragMaxDecompositionQueries := 5
  , ragMinRelevanceScore := 0 }

/-- Fully configured pipeline with a zero relevance threshold. -/
def cfgEnabled : Config :=
  { anthropicApiKey := "key", enableRag := true, ragBedrockKbId := "kb-id"
  , ragMaxResults := 10, ragMaxDecompositionQueries := 5
  , ragMinRelevanceScore := 0 }

/-- Pipeline disabled by the feature flag. -/
def cfgDisabled : Config := { cfgEnabled with enableRag := false }

/-- Configured pipeline without an Anthropic API key. -/
def cfgNoKey : Config := { cfgEnabled with anthropicApiKey := "" }

/-- Configured pipeline with a positive relevance threshold. -/
def cfgStrict : Config := { cfgEnabled with ragMinRelevanceScore := 1 }

/-- A raw knowledge-base item with no score field. -/
def itemNoScore : KBRawResult :=
  { contentText := some "c", locationUri := some "s", score := none
  , metadata := none }

/-! ### Claims -/

/-- C1, counterexample: with retrieval enabled (`enableRag = true`) but no
knowledge-store endpoint configured (`ragBedrockKbId = ""`),
`RAGService.retrieveContext` signals no error at all: it silently returns
the zero-value no-op `RAGContext`, indistinguishable from the
feature-disabled case — refuting the claim that it refuses the run with an
explicit error. -/
theorem claim_C1_counterexample :
    RAGService.retrieveContext cfgMisconfigured (Except.error ())
        (fun _ => Except.ok []) "q"
      = { query := "q", context := "", sources := [], subQueries := []
        , totalResults := 0, processingTime := 0 }
    ∧ RAGService.retrieveContext cfgMisconfigured (Except.error ())
        (fun _ => Except.ok []) "q"
      = RAGService.retrieveContext cfgDisabled (Except.error ())
        (fun _ => Except.ok []) "q" := by
  constructor
  · decide
  · decide

/-- C1, amended: if `enableRag = true` but `ragBedrockKbId` is the empty
string, `isEnabled()` is false and `retrieveContext` silently returns the
zero-value `RAGContext` (empty context, no sources, no sub-queries, zero
results) for every query, signalling no error to its caller. -/
theorem claim_C1_amended (cfg : Config)
    (completion : Except Unit ParsedDecomposition)
    (aws : String → Except Unit (List KBRawResult)) (query : String)
    (h1 : cfg.enableRag = true) (h2 : cfg.ragBedrockKbId = "") :
    RAGService.retrieveContext cfg completion aws query
      = { query := query, context := "", sources := [], subQueries := []
        , totalResults := 0, processingTime := 0 } := by
  apply retrieveContext_disabled _ completion aws query
  simp [RAGService.isEnabled, h2]

/-- C1, witness for the amended claim at a concrete misconfigured config. -/
theorem claim_C1_witness :
    RAGService.retrieveContext cfgMisconfigured
        (Except.ok { subQueries := ["a"], reasoning := "r" })
        (fun _ => Except.ok []) "query"
      = { query := "query", context := "", sources := [], subQueries := []
        , totalResults := 0, processingTime := 0 } :=
  claim_C1_amended cfgMisconfigured
    (Except.ok { subQueries := ["a"], reasoning := "r" })
    (fun _ => Except.ok []) "query" rfl rfl

/-- C2: for every sequence of per-sub-query result sets, the deduplicated
collection accumulated by `retrieveContext` retains exactly the first-seen
result of each content signature (in sub-query submission order, then
within-set order), never contains two entries with equal signature, and
the retrieval loop of `retrieveContext` is exactly this accumulation over
the successfully retrieved result sets. -/
theorem claim_C2 (sets : List (List RetrievalResult)) :
    (RAGService.mergeSets sets).1.map Prod.snd = firstSeenDedup sets.flatten
    ∧ List.Pairwise
        (fun a b =>
          RAGService.hashContent a.content ≠ RAGService.hashContent b.content)
        ((RAGService.mergeSets sets).1.map Prod.snd)
    ∧ ∀ (kb : String → Except Unit RetrievalResponse) (subs : List String),
        RAGService.retrieveLoop kb subs
          = RAGService.mergeSets (RAGService.successResultSets kb subs) := by
  refine ⟨mergeSets_fst_map_snd sets, ?_, retrieveLoop_eq_mergeSets⟩
  rw [mergeSets_fst_map_snd sets]
  exact firstSeenFrom_pairwise sets.flatten []

/-- C3: every result returned by `BedrockKBService.retrieve` has score at
least `config.ragMinRelevanceScore`, and hence so does every entry of the
internal `rankedResults` of any `retrieveContext` run. -/
theorem claim_C3 (cfg : Config) (raw : List KBRawResult)
    (r : RetrievalResult) :
    (r ∈ BedrockKBService.retrieveResults cfg raw →
      cfg.ragMinRelevanceScore ≤ r.score)
    ∧ (∀ (completion : Except Unit ParsedDecomposition)
        (aws : String → Except Unit (List KBRawResult)) (query : String),
        r ∈ RAGService.rankedResultsOf cfg completion aws query →
        cfg.ragMinRelevanceScore ≤ r.score) := by
  refine ⟨fun h => retrieveResults_score h, ?_⟩
  intro completion aws query h
  obtain ⟨raws, hr⟩ := mem_rankedResultsOf h
  exact retrieveResults_score hr

/-- C3, witness: a result of score 1 passes the threshold 1 and the
theorem yields the bound at it. -/
theorem claim_C3_witness :
    cfgStrict.ragMinRelevanceScore
      ≤ ({ content := "c", source := "s", score := 1, metadata := none }
          : RetrievalResult).score :=
  (claim_C3 cfgStrict
    [{ contentText := some "c", locationUri := some "s", score := some 1
     , metadata := none }]
    { content := "c", source := "s", score := 1, metadata := none }).1
    (by decide)

/-- C4: `rankResults` sorts descending by score (every adjacent pair
satisfies `score[i] >= score[i+1]`) and is stable: the subsequence of
entries with any given score is exactly the input subsequence with that
score, in the original order. -/
theorem claim_C4 (results : List RetrievalResult) :
    List.Chain' (fun a b => b.score ≤ a.score)
      (RAGService.rankResults results)
    ∧ ∀ s : Rat,
      (RAGService.rankResults results).filter (fun r => decide (r.score = s))
        = results.filter (fun r => decide (r.score = s)) :=
  ⟨(rankResults_sorted results).chain',
   fun s => rankResults_filter_score results s⟩

/-- C5: if every per-sub-query retrieval call throws, `retrieveContext`
still returns normally with an empty context, zero total results and no
sources. -/
theorem claim_C5 (cfg : Config) (completion : Except Unit ParsedDecomposition)
    (aws : String → Except Unit (List KBRawResult)) (query : String)
    (h : ∀ sub ∈ (QueryDecompositionService.decomposeQuery cfg completion
        query).subQueries, aws sub = Except.error ()) :
    (RAGService.retrieveContext cfg completion aws query).context = ""
    ∧ (RAGService.retrieveContext cfg completion aws query).totalResults = 0
    ∧ (RAGService.retrieveContext cfg completion aws query).sources = [] := by
  cases hen : RAGService.isEnabled cfg with
  | false =>
    rw [retrieveContext_disabled hen]
    exact ⟨rfl, rfl, rfl⟩
  | true =>
    have hsets : RAGService.successResultSets
        (fun subQuery => BedrockKBService.retrieve cfg (aws subQuery) subQuery)
        (QueryDecompositionService.decomposeQuery cfg completion
          query).subQueries = [] := by
      unfold RAGService.successResultSets
      rw [List.filterMap_eq_nil]
      intro a ha
      simp only []
      rw [h a ha]
      rfl
    have hloop : RAGService.retrieveLoop
        (fun subQuery => BedrockKBService.retrieve cfg (aws subQuery) subQuery)
        (QueryDecompositionService.decomposeQuery cfg completion
          query).subQueries = ([], []) := by
      rw [retrieveLoop_eq_mergeSets, hsets]
      rfl
    have hranked : RAGService.rankedResultsOf cfg completion aws query = [] := by
      rw [rankedResultsOf_loop hen, hloop]
      simp [RAGService.rankResults, List.mergeSort_nil]
    rw [retrieveContext_enabled hen]
    refine ⟨?_, ?_, ?_⟩
    · show RAGService.formatContext
        (RAGService.rankedResultsOf cfg completion aws query) query = ""
      rw [hranked]
      rfl
    · show (RAGService.rankedResultsOf cfg completion aws query).length = 0
      rw [hranked]
      rfl
    · show (RAGService.retrieveLoop
        (fun subQuery => BedrockKBService.retrieve cfg (aws subQuery) subQuery)
        (QueryDecompositionService.decomposeQuery cfg completion
          query).subQueries).2 = []
      rw [hloop]

/-- C5, witness: a run in which the single sub-query retrieval throws. -/
theorem claim_C5_witness :
    (RAGService.retrieveContext cfgEnabled (Except.error ())
        (fun _ => Except.error ()) "q").context = ""
    ∧ (RAGService.retrieveContext cfgEnabled (Except.error ())
        (fun _ => Except.error ()) "q").totalResults = 0
    ∧ (RAGService.retrieveContext cfgEnabled (Except.error ())
        (fun _ => Except.error ()) "q").sources = [] :=
  claim_C5 cfgEnabled (Except.error ()) (fun _ => Except.error ()) "q"
    (fun _ _ => rfl)

/-- C6: `augmentPrompt` returns the message unchanged exactly when the
retrieved context is empty, otherwise returns the context, the
`## User Question` separator, and the original message; in particular with
retrieval disabled it is the identity. -/
theorem claim_C6 (cfg : Config) (completion : Except Unit ParsedDecomposition)
    (aws : String → Except Unit (List KBRawResult)) (msg : String) :
    (RAGService.augmentPrompt cfg completion aws msg = msg
      ↔ (RAGService.retrieveContext cfg completion aws msg).context = "")
    ∧ ((RAGService.retrieveContext cfg completion aws msg).context ≠ "" →
        RAGService.augmentPrompt cfg completion aws msg
          = (RAGService.retrieveContext cfg completion aws msg).context
            ++ "\n\n## User Question\n\n" ++ msg)
    ∧ (cfg.enableRag = false →
        RAGService.augmentPrompt cfg completion aws msg = msg) := by
  cases hen : RAGService.isEnabled cfg with
  | false =>
    have haug : RAGService.augmentPrompt cfg completion aws msg = msg := by
      simp [RAGService.augmentPrompt, hen]
    have hctx := retrieveContext_disabled hen completion aws msg
    refine ⟨?_, ?_, fun _ => haug⟩
    · rw [haug, hctx]
      simp
    · rw [hctx]
      intro hne
      exact absurd rfl hne
  | true =>
    have henr : cfg.enableRag = true := by
      have h2 := hen
      simp [RAGService.isEnabled] at h2
      exact h2.1
    have haug : RAGService.augmentPrompt cfg completion aws msg
        = (if (RAGService.retrieveContext cfg completion aws msg).context = ""
           then msg
           else (RAGService.retrieveContext cfg completion aws msg).context
             ++ "\n\n## User Question\n\n" ++ msg) := by
      simp [RAGService.augmentPrompt, hen]
    by_cases hctx :
        (RAGService.retrieveContext cfg completion aws msg).context = ""
    · rw [haug, if_pos hctx]
      refine ⟨?_, fun hne => absurd hctx hne, fun hfalse => rfl⟩
      simp [hctx]
    · rw [haug, if_neg hctx]
      have hneq : (RAGService.retrieveContext cfg completion aws msg).context
          ++ "\n\n## User Question\n\n" ++ msg ≠ msg := by
        intro heq
        have hlen := congrArg String.length heq
        rw [String.length_append, String.length_append] at hlen
        have hsep : ("\n\n## User Question\n\n" : String).length = 20 := by
          decide
        rw [hsep] at hlen
        omega
      refine ⟨⟨fun heq => absurd heq hneq, fun h0 => absurd h0 hctx⟩,
        fun _ => rfl, fun hfalse => ?_⟩
      rw [hfalse] at henr
      cases henr

/-- C6, witness: with retrieval disabled the prompt passes through. -/
theorem claim_C6_witness :
    RAGService.augmentPrompt cfgDisabled (Except.error ())
      (fun _ => Except.error ()) "Hello" = "Hello" :=
  (claim_C6 cfgDisabled (Except.error ())
    (fun _ => Except.error ()) "Hello").2.2 rfl

/-- C7, counterexample: a successful completion whose parsed `subQueries`
array is empty is not treated as a failure — `decomposeQuery` returns an
empty sub-query list, not the single-element fallback, so the length can
be 0 and the claimed lower bound of 1 fails. -/
theorem claim_C7_counterexample :
    (QueryDecompositionService.decomposeQuery cfgEnabled
        (Except.ok { subQueries := [], reasoning := "r" }) "q").subQueries = []
    ∧ ¬(1 ≤ (QueryDecompositionService.decomposeQuery cfgEnabled
        (Except.ok { subQueries := [], reasoning := "r" })
        "q").subQueries.length) := by
  constructor
  · decide
  · decide

/-- C7, amended: `decomposeQuery` returns at most
`config.ragMaxDecompositionQueries` sub-queries on a successful completion
(truncating oversized lists, but passing a zero-item completion through as
an empty list rather than treating it as a failure), and exactly the
single-element fallback `[query]` on any failure path (completion error,
or no API key configured). -/
theorem claim_C7_amended (cfg : Config) (parsed : ParsedDecomposition)
    (query : String) (e : Unit) :
    ((QueryDecompositionService.decomposeQuery cfg (Except.error e)
        query).subQueries = [query])
    ∧ (cfg.anthropicApiKey = "" →
        ∀ completion : Except Unit ParsedDecomposition,
        (QueryDecompositionService.decomposeQuery cfg completion
          query).subQueries = [query])
    ∧ (cfg.anthropicApiKey ≠ "" →
        (QueryDecompositionService.decomposeQuery cfg (Except.ok parsed)
            query).subQueries
          = parsed.subQueries.take cfg.ragMaxDecompositionQueries
        ∧ (QueryDecompositionService.decomposeQuery cfg (Except.ok parsed)
            query).subQueries.length ≤ cfg.ragMaxDecompositionQueries) := by
  refine ⟨?_, ?_, ?_⟩
  · by_cases hk : cfg.anthropicApiKey = "" <;>
      simp [QueryDecompositionService.decomposeQuery, hk]
  · intro hk completion
    simp [QueryDecompositionService.decomposeQuery, hk]
  · intro hne
    have h1 : (QueryDecompositionService.decomposeQuery cfg (Except.ok parsed)
        query).subQueries
        = parsed.subQueries.take cfg.ragMaxDecompositionQueries := by
      simp [QueryDecompositionService.decomposeQuery, hne]
    exact ⟨h1, by rw [h1]; exact List.length_take_le _ _⟩

/-- C7, witness for the amended claim: an oversized completion is truncated
to the configured maximum of 5, and a thrown completion yields the
fallback. -/
theorem claim_C7_witness :
    (QueryDecompositionService.decomposeQuery cfgEnabled
        (Except.ok { subQueries := ["a", "b", "c", "d", "e", "f"]
                   , reasoning := "r" }) "q").subQueries
      = ["a", "b", "c", "d", "e"]
    ∧ (QueryDecompositionService.decomposeQuery cfgEnabled (Except.error ())
        "q").subQueries = ["q"] := by
  have h := claim_C7_amended cfgEnabled
    { subQueries := ["a", "b", "c", "d", "e", "f"], reasoning := "r" } "q" ()
  refine ⟨?_, h.1⟩
  rw [(h.2.2 (by decide)).1]
  decide

/-- C8: on any failure of the completion call (thrown error, malformed
response — both folded into the `.error` outcome — or no API credential
configured), `decomposeQuery` returns normally (its return type is total:
nothing propagates) with `subQueries = [query]`. -/
theorem claim_C8 (cfg : Config) (query : String) (e : Unit) :
    ((QueryDecompositionService.decomposeQuery cfg (Except.error e)
        query).subQueries = [query])
    ∧ ∀ completion : Except Unit ParsedDecomposition,
        cfg.anthropicApiKey = "" →
        (QueryDecompositionService.decomposeQuery cfg completion
          query).subQueries = [query] := by
  refine ⟨?_, ?_⟩
  · by_cases hk : cfg.anthropicApiKey = "" <;>
      simp [QueryDecompositionService.decomposeQuery, hk]
  · intro completion hk
    simp [QueryDecompositionService.decomposeQuery, hk]

/-- C8, witness: concrete fallbacks with a thrown completion and with no
API key. -/
theorem claim_C8_witness :
    (QueryDecompositionService.decomposeQuery cfgEnabled (Except.error ())
        "q").subQueries = ["q"]
    ∧ (QueryDecompositionService.decomposeQuery cfgNoKey
        (Except.ok { subQueries := ["a"], reasoning := "r" })
        "q").subQueries = ["q"] :=
  ⟨(claim_C8 cfgEnabled "q" ()).1,
   (claim_C8 cfgNoKey "q" ()).2
     (Except.ok { subQueries := ["a"], reasoning := "r" }) rfl⟩

/-- C9: the `sources` list of the returned `RAGContext` has no duplicates
and contains exactly the distinct `source` values of the ranked
deduplicated results of the run. -/
theorem claim_C9 (cfg : Config) (completion : Except Unit ParsedDecomposition)
    (aws : String → Except Unit (List KBRawResult)) (query : String) :
    (RAGService.retrieveContext cfg completion aws query).sources.Nodup
    ∧ ∀ s : String,
        s ∈ (RAGService.retrieveContext cfg completion aws query).sources
        ↔ ∃ r ∈ RAGService.rankedResultsOf cfg completion aws query,
            r.source = s := by
  cases hen : RAGService.isEnabled cfg with
  | false =>
    rw [retrieveContext_disabled hen]
    have hr : RAGService.rankedResultsOf cfg completion aws query = [] := by
      simp [RAGService.rankedResultsOf, hen]
    rw [hr]
    simp
  | true =>
    have hsrc : (RAGService.retrieveContext cfg completion aws query).sources
        = (RAGService.retrieveLoop
          (fun subQuery => BedrockKBService.retrieve cfg (aws subQuery) subQuery)
          (QueryDecompositionService.decomposeQuery cfg completion
            query).subQueries).2 := by
      rw [retrieveContext_enabled hen]
    have hone : (RAGService.retrieveLoop
        (fun subQuery => BedrockKBService.retrieve cfg (aws subQuery) subQuery)
        (QueryDecompositionService.decomposeQuery cfg completion
          query).subQueries).2
        = (firstSeenDedup (RAGService.successResultSets
            (fun subQuery => BedrockKBService.retrieve cfg (aws subQuery) subQuery)
            (QueryDecompositionService.decomposeQuery cfg completion
              query).subQueries).flatten).foldl
            (fun acc r => jsSetAdd acc r.source) [] := by
      rw [retrieveLoop_eq_mergeSets, mergeSets_eq]
    have hmapsnd : (RAGService.retrieveLoop
        (fun subQuery => BedrockKBService.retrieve cfg (aws subQuery) subQuery)
        (QueryDecompositionService.decomposeQuery cfg completion
          query).subQueries).1.map Prod.snd
        = firstSeenDedup (RAGService.successResultSets
            (fun subQuery => BedrockKBService.retrieve cfg (aws subQuery) subQuery)
            (QueryDecompositionService.decomposeQuery cfg completion
              query).subQueries).flatten := by
      rw [retrieveLoop_eq_mergeSets]
      exact mergeSets_fst_map_snd _
    have hranked : RAGService.rankedResultsOf cfg completion aws query
        = RAGService.rankResults
            (firstSeenDedup (RAGService.successResultSets
              (fun subQuery => BedrockKBService.retrieve cfg (aws subQuery) subQuery)
              (QueryDecompositionService.decomposeQuery cfg completion
                query).subQueries).flatten) := by
      rw [rankedResultsOf_loop hen, hmapsnd]
    refine ⟨?_, ?_⟩
    · rw [hsrc, hone]
      exact foldl_jsSetAdd_nodup _ [] List.nodup_nil
    · intro s
      rw [hsrc, hone, hranked, foldl_jsSetAdd_mem]
      simp only [List.not_mem_nil, false_or]
      constructor
      · rintro ⟨r, hr, hsrc2⟩
        exact ⟨r, (rankResults_perm _).mem_iff.mpr hr, hsrc2⟩
      · rintro ⟨r, hr, hsrc2⟩
        exact ⟨r, (rankResults_perm _).mem_iff.mp hr, hsrc2⟩

/-- C10: a knowledge-base response item with no score field is treated as
having score 0 by `BedrockKBService.retrieve`: it is excluded whenever
`config.ragMinRelevanceScore > 0`, and included with score 0 when the
threshold is 0. -/
theorem claim_C10 (cfg : Config) (item : KBRawResult)
    (h : item.score = none) :
    (0 < cfg.ragMinRelevanceScore →
      ∀ pre post : List KBRawResult,
        BedrockKBService.retrieveResults cfg (pre ++ item :: post)
          = BedrockKBService.retrieveResults cfg pre
            ++ BedrockKBService.retrieveResults cfg post)
    ∧ (cfg.ragMinRelevanceScore = 0 →
      ∀ pre post : List KBRawResult,
        BedrockKBService.retrieveResults cfg (pre ++ item :: post)
          = BedrockKBService.retrieveResults cfg pre
            ++ ({ content := jsOrString item.contentText ""
                , source := jsOrString item.locationUri "Unknown source"
                , score := 0
                , metadata := item.metadata } : RetrievalResult)
            :: BedrockKBService.retrieveResults cfg post) := by
  have hzero : jsNumOrZero item.score = 0 := by rw [h]; rfl
  constructor
  · intro hpos pre post
    have hnle : ¬(cfg.ragMinRelevanceScore ≤ jsNumOrZero item.score) := by
      rw [hzero]
      exact not_le.mpr hpos
    simp [BedrockKBService.retrieveResults, List.filterMap_append,
      List.filterMap_cons, hnle]
  · intro hz pre post
    have hle : cfg.ragMinRelevanceScore ≤ jsNumOrZero item.score := by
      rw [hzero, hz]
    simp [BedrockKBService.retrieveResults, List.filterMap_append,
      List.filterMap_cons, hle, hzero, hz]

/-- C10, witness: the concrete no-score item is dropped at threshold 1 and
kept with score 0 at threshold 0. -/
theorem claim_C10_witness :
    BedrockKBService.retrieveResults cfgStrict ([] ++ itemNoScore :: [])
      = BedrockKBService.retrieveResults cfgStrict []
        ++ BedrockKBService.retrieveResults cfgStrict []
    ∧ BedrockKBService.retrieveResults cfgEnabled ([] ++ itemNoScore :: [])
      = BedrockKBService.retrieveResults cfgEnabled []
        ++ ({ content := jsOrString itemNoScore.contentText ""
            , source := jsOrString itemNoScore.locationUri "Unknown source"
            , score := 0
            , metadata := itemNoScore.metadata } : RetrievalResult)
        :: BedrockKBService.retrieveResults cfgEnabled [] :=
  ⟨(claim_C10 cfgStrict itemNoScore rfl).1 (by decide) [] [],
   (claim_C10 cfgEnabled itemNoScore rfl).2 rfl [] []⟩
